import Mathlib

/-!
Verification development for the asr_preprocessing segmentation-and-statistics
engine (CSJ input-data readers).  The Python sources embedded here are
`src/csj/inputs/input_data.py` (per-gender reader) and
`src/src/csj/inputs/input_data.py` (single-cohort reader).  Feature values are
modelled as exact reals; a frame is a list of reals, a feature matrix a list of
frames.  The contents of buffers that numpy's `np.empty` leaves uninitialized
are modelled as explicit parameters (`meanInit`, `stdInit`).
-/

namespace Asr

noncomputable section

/-- One frame: a fixed-length vector of feature values. -/
abbrev Vec := List ℝ

/-- A feature matrix: frames by feature dimension. -/
abbrev Mat := List Vec

/-- Elementwise vector addition (numpy `+` on equal-length float arrays). -/
def vecAdd (x y : Vec) : Vec := List.zipWith (fun a b => a + b) x y

/-- Elementwise vector subtraction (numpy `-`). -/
def vecSub (x y : Vec) : Vec := List.zipWith (fun a b => a - b) x y

/-- Elementwise vector division (numpy `/`). -/
def vecDiv (x y : Vec) : Vec := List.zipWith (fun a b => a / b) x y

/-- Embeds the global-mean computation of `read_htk`
(`src/src/csj/inputs/input_data.py` lines 55-60): the accumulator starts from
the contents `init` of the `np.empty((feature_dim,))` buffer, each speaker's
`train_mean_list[i]` is added, and the result is divided by
`float(np.sum(total_frame_num_list))`. -/
def train_global_mean (init : Vec) (train_mean_list : List Vec)
    (total_frame_num_list : List ℕ) : Vec :=
  (train_mean_list.foldl vecAdd init).map
    (fun x => x / (total_frame_num_list.sum : ℝ))

/-- Embeds `sqrt_sum` (`src/src/csj/inputs/input_data.py` lines 116-122):
`value_sqrt_sum = np.zeros((feature_dim,))` with
`feature_dim = inputs[0].shape[0]`, then for each frame add the squared
deviation from `global_mean`. -/
def sqrt_sum (inputs : Mat) (global_mean : Vec) : Vec :=
  inputs.foldl
    (fun acc input_vec => vecAdd acc ((vecSub input_vec global_mean).map (fun x => x ^ 2)))
    (List.replicate (inputs.headD []).length 0)

/-- Embeds the global-std computation of `read_htk`
(`src/src/csj/inputs/input_data.py` lines 62-78): the accumulator starts from
the contents `initStd` of the second `np.empty((feature_dim,))` buffer, each
speaker's `sqrt_sum(train_data_speaker, train_global_mean)` is added, and the
result is divided by the total frame count and taken to the power 0.5.  The
per-speaker `train_data_speaker` (concatenation of that speaker's utterance
matrices) is received here directly as `speakers_frames`. -/
def train_global_std (initStd : Vec) (speakers_frames : List Mat)
    (g_mean : Vec) (total_frame_num_list : List ℕ) : Vec :=
  ((speakers_frames.foldl (fun acc frames => vecAdd acc (sqrt_sum frames g_mean)) initStd).map
    (fun x => Real.sqrt (x / (total_frame_num_list.sum : ℝ))))

/-- Embeds the normalization expression
`(input_data_utt - train_global_mean) / train_global_std`
(`src/src/csj/inputs/input_data.py` lines 96-97); the per-gender reader applies
the same transformation as two in-place steps `-=` then `/=`
(`src/csj/inputs/input_data.py` lines 118-122), which composes to the same
row map. -/
def normalize (m : Mat) (mean std : Vec) : Mat :=
  m.map (fun r => vecDiv (vecSub r mean) std)

/-- Result of a call to `segment_htk` for one speaker, as consumed by both
readers: the utterance dictionary (insertion-ordered key/matrix pairs, keys of
the form `speakerName_uttIndex`), the per-speaker accumulated frame sum
(`train_mean_speaker`, which per the spec holds the speaker's frame sum before
Pass-1 finalization), and the speaker's total frame count. -/
structure SpeakerData where
  name : String
  utts : List (String × Mat)
  speakerSum : Vec
  frameCount : ℕ

/-- The frames the second pass reads back for one speaker: the code fills a
`(total_frame_num_speaker, feature_dim)` buffer with the speaker's utterance
matrices at consecutive offsets (`src/src/csj/inputs/input_data.py` lines
67-75), i.e. their concatenation. -/
def speakerFrames (sp : SpeakerData) : Mat :=
  (sp.utts.map Prod.snd).flatten

/-- The utterances the saving loop visits, in order: the per-speaker
dictionaries in speaker order, each in insertion order. -/
def allUtts (speakers : List SpeakerData) : List (String × Mat) :=
  (speakers.map (fun sp => sp.utts)).flatten

/-- Dynamic failures the readers can hit, named after the spec taxonomy:
`missingStatistics` models the crash at the normalization step when no
finalized statistics are bound (Python: `UnboundLocalError` on
`train_global_mean`, or arithmetic with a `None` parameter), and `indexError`
models `speaker_name[3]` / `train_mean_list[0]` on too-short data. -/
inductive PyError
  | missingStatistics
  | indexError
deriving DecidableEq

/-- Python-dict insertion on an insertion-ordered association list: an existing
key is updated in place, a fresh key is appended. -/
def dictInsert : List (String × ℕ) → String → ℕ → List (String × ℕ)
  | [], k, v => [(k, v)]
  | p :: rest, k, v =>
    if p.1 = k then (k, v) :: rest else p :: dictInsert rest k v

/-- One iteration of the saving loop of the single-cohort reader
(`src/src/csj/inputs/input_data.py` lines 93-97): under `global_norm` the
utterance is normalized with the training-pass statistics; if those were never
bound (non-training run) the access crashes. -/
def processUtt (stats : Option (Vec × Vec)) (global_norm : Bool) (m : Mat) :
    Except PyError Mat :=
  if global_norm then
    match stats with
    | none => .error .missingStatistics
    | some (mu, sd) => .ok (normalize m mu sd)
  else .ok m

/-- The matrix the single-cohort saving loop actually emits for one utterance
when it does not crash: the normalized matrix under `global_norm` with bound
statistics, the raw matrix otherwise. -/
def emit (stats : Option (Vec × Vec)) (global_norm : Bool) (m : Mat) : Mat :=
  if global_norm then
    match stats with
    | some (mu, sd) => normalize m mu sd
    | none => m
  else m

/-- The saving loop (both readers share this shape): utterances are processed
in order; each success appends an `np.save` record and a `frame_num_dict`
entry; the first failure aborts the loop, keeping the writes made so far and
never reaching the `frame_num.pickle` dump. -/
def saveLoop (proc : String → Mat → Except PyError Mat) :
    List (String × Mat) → List (String × Mat) → List (String × ℕ) →
    List (String × Mat) × List (String × ℕ) × Option PyError
  | [], saved, dict => (saved, dict, none)
  | (k, m) :: rest, saved, dict =>
    match proc k m with
    | .error e => (saved, dict, some e)
    | .ok m2 => saveLoop proc rest (saved ++ [(k, m2)]) (dictInsert dict k m2.length)

/-- Arguments of the single-cohort `read_htk`
(`src/src/csj/inputs/input_data.py` lines 15-16).  `speakers` carries the
`segment_htk` results in `htk_paths` order, `save` models
`save_path is not None`, and `meanInit` / `stdInit` are the contents the two
`np.empty` buffers happen to start with. -/
structure CsjArgs where
  speakers : List SpeakerData
  global_norm : Bool
  is_training : Bool
  save : Bool
  train_mean : Option Vec
  train_std : Option Vec
  meanInit : Vec
  stdInit : Vec

/-- Observable outcome of one `read_htk` call: the persisted statistics pair
(`train_mean.npy` / `train_std.npy`), the per-utterance `np.save` records in
order, the `frame_num.pickle` contents (written only when the saving loop
finishes), the first uncaught failure, and the function's return value
(absent when the call crashed). -/
structure RunResult where
  savedStats : Option (Vec × Vec)
  savedUtts : List (String × Mat)
  frameIndex : Option (List (String × ℕ))
  err : Option PyError
  returned : Option (Option Vec × Option Vec)

/-- The whole saving block under `save_path is not None`: run the loop from
empty accumulators; the pickled frame-number dictionary exists only when the
loop finished without an exception. -/
def savePhase (proc : String → Mat → Except PyError Mat) (utts : List (String × Mat)) :
    List (String × Mat) × Option (List (String × ℕ)) × Option PyError :=
  let r := saveLoop proc utts [] []
  (r.1, if r.2.2 = none then some r.2.1 else none, r.2.2)

/-- The statistics the training pass binds `train_global_mean` /
`train_global_std` to (`src/src/csj/inputs/input_data.py` lines 51-78); in a
non-training call these local variables are never assigned, modelled as
`none`. -/
def csjStats (a : CsjArgs) : Option (Vec × Vec) :=
  if a.is_training then
    some (train_global_mean a.meanInit
        (a.speakers.map (fun sp => sp.speakerSum))
        (a.speakers.map (fun sp => sp.frameCount)),
      train_global_std a.stdInit (a.speakers.map speakerFrames)
        (train_global_mean a.meanInit
          (a.speakers.map (fun sp => sp.speakerSum))
          (a.speakers.map (fun sp => sp.frameCount)))
        (a.speakers.map (fun sp => sp.frameCount)))
  else none

/-- Embeds the single-cohort `read_htk`
(`src/src/csj/inputs/input_data.py` lines 15-113).  Training mode computes the
global statistics (crashing on `train_mean_list[0]` for an empty speaker
list) and persists them when saving; the saving loop then emits every
utterance, normalizing under `global_norm` with the training-pass statistics
(which are unbound in a non-training run); finally the frame-number dictionary
is pickled and the `train_mean` / `train_std` arguments are returned (the
return is reached only by calls that did not crash). -/
def read_htk (a : CsjArgs) : RunResult :=
  if a.is_training && a.speakers.isEmpty then ⟨none, [], none, some .indexError, none⟩
  else
    let savedStats := if a.is_training && a.save then csjStats a else none
    if a.save then
      let p := savePhase (fun _ m => processUtt (csjStats a) a.global_norm m)
        (allUtts a.speakers)
      ⟨savedStats, p.1, p.2.1, p.2.2,
        if p.2.2 = none then some (a.train_mean, a.train_std) else none⟩
    else ⟨savedStats, [], none, none, some (a.train_mean, a.train_std)⟩

/-- Elementwise sum of a list of vectors (a fold of numpy `+`). -/
def vecSumList : List Vec → Vec
  | [] => []
  | [v] => v
  | v :: rest => vecAdd v (vecSumList rest)

/-- Modelled from the spec: `global_mean` is imported from
`utils/inputs/segmentation.py`, which is not under `src/`.  Per spec §4.2
Pass 1, the cohort mean is the elementwise sum of the speakers' frame sums
divided by the cohort's total frame count. -/
def global_mean (train_mean_list : List Vec) (total_frame_num_list : List ℕ) : Vec :=
  (vecSumList train_mean_list).map (fun x => x / (total_frame_num_list.sum : ℝ))

/-- Sum of squared deviations of a speaker's frames from a finalized mean,
elementwise (spec §4.2 Pass 2 accumulation). -/
def sumSqDev (frames : Mat) (mean : Vec) : Vec :=
  vecSumList (frames.map (fun fr => (vecSub fr mean).map (fun x => x ^ 2)))

/-- Modelled from the spec: `global_std` is imported from
`utils/inputs/segmentation.py`, which is not under `src/`.  Per spec §4.2
Pass 2, `std = sqrt(sum_sq_dev / frame_count)` elementwise, with every squared
deviation taken against the already-finalized cohort mean. -/
def global_std (speaker_frames_list : List Mat) (total_frame_num_list : List ℕ)
    (mean : Vec) : Vec :=
  (vecSumList (speaker_frames_list.map (fun frames => sumSqDev frames mean))).map
    (fun x => Real.sqrt (x / (total_frame_num_list.sum : ℝ)))

/-- The normalization policies of the per-gender reader, the `normalize`
string argument of `src/csj/inputs/input_data.py` (`'global'`, `'speaker'`,
`'utterance'`). -/
inductive NormMode
  | glob
  | speaker
  | utterance
deriving DecidableEq

/-- Arguments of the per-gender `read_htk`
(`src/csj/inputs/input_data.py` lines 19-21). -/
structure GArgs where
  speakers : List SpeakerData
  normalize_mode : NormMode
  is_training : Bool
  save : Bool
  train_mean_male : Option Vec
  train_mean_female : Option Vec
  train_std_male : Option Vec
  train_std_female : Option Vec

/-- Observable outcome of one per-gender `read_htk` call: the four persisted
statistics arrays (training runs with saving), the `np.save` records, the
`frame_num.pickle` contents, the first uncaught failure, and the returned
4-tuple. -/
structure GRunResult where
  savedStats : Option (Vec × Vec × Vec × Vec)
  savedUtts : List (String × Mat)
  frameIndex : Option (List (String × ℕ))
  err : Option PyError
  returned : Option (Option Vec × Option Vec × Option Vec × Option Vec)

/-- The reading loop's gender routing
(`src/csj/inputs/input_data.py` lines 56-73): each speaker goes to the male
lists when `speaker_name[3] == 'M'`, to the female lists when it is `'F'`, and
is dropped otherwise; a name shorter than 4 characters makes `speaker_name[3]`
raise. -/
def splitGender : List SpeakerData → Except PyError (List SpeakerData × List SpeakerData)
  | [] => .ok ([], [])
  | sp :: rest =>
    match sp.name.toList.get? 3 with
    | none => .error .indexError
    | some c =>
      match splitGender rest with
      | .error e => .error e
      | .ok (ms, fs) =>
        if c = 'M' then .ok (sp :: ms, fs)
        else if c = 'F' then .ok (ms, sp :: fs)
        else .ok (ms, fs)

/-- The speaker name recovered from an utterance key by
`key.split('_')` (`src/csj/inputs/input_data.py` line 113). -/
def keySpeakerName (k : String) : String :=
  (k.splitOn ("_")).headD ("")

/-- One iteration of the per-gender saving loop
(`src/csj/inputs/input_data.py` lines 112-129): under `'global'` the utterance
is normalized with its gender's statistics (`-=` mean then `/=` std); a `None`
statistic crashes the arithmetic, and a key whose speaker-name part is shorter
than 4 characters crashes `speaker_name[3]`.  A gender character that is
neither `'M'` nor `'F'` matches no branch and the utterance is saved
unnormalized. -/
def processUttG (stats_m stats_f : Option (Vec × Vec)) (mode : NormMode)
    (k : String) (m : Mat) : Except PyError Mat :=
  if mode = NormMode.glob then
    match (keySpeakerName k).toList.get? 3 with
    | none => .error .indexError
    | some c =>
      if c = 'M' then
        match stats_m with
        | none => .error .missingStatistics
        | some (mu, sd) => .ok (normalize m mu sd)
      else if c = 'F' then
        match stats_f with
        | none => .error .missingStatistics
        | some (mu, sd) => .ok (normalize m mu sd)
      else .ok m
  else .ok m

/-- Pairs a mean and a std option into the statistics available for one
gender: normalization needs both (a `None` in either crashes the in-place
arithmetic). -/
def normStats (mo so : Option Vec) : Option (Vec × Vec) :=
  match mo, so with
  | some mu, some sd => some (mu, sd)
  | _, _ => none

/-- Embeds the per-gender `read_htk`
(`src/csj/inputs/input_data.py` lines 19-136).  Speakers are routed by
`speaker_name[3]`; training recomputes the four per-gender statistics with
`global_mean` / `global_std` and persists them when saving; the saving loop
visits the male dictionaries then the female ones, normalizing under
`'global'`; the frame-number dictionary is pickled after the loop; the four
statistics variables (rebound in training) are returned. -/
def gender_read_htk (a : GArgs) : GRunResult :=
  match splitGender a.speakers with
  | .error e => ⟨none, [], none, some e, none⟩
  | .ok (males, females) =>
    let computed_mm := global_mean (males.map (fun sp => sp.speakerSum))
      (males.map (fun sp => sp.frameCount))
    let computed_mf := global_mean (females.map (fun sp => sp.speakerSum))
      (females.map (fun sp => sp.frameCount))
    let computed_sm := global_std (males.map speakerFrames)
      (males.map (fun sp => sp.frameCount)) computed_mm
    let computed_sf := global_std (females.map speakerFrames)
      (females.map (fun sp => sp.frameCount)) computed_mf
    let tmm := if a.is_training then some computed_mm else a.train_mean_male
    let tmf := if a.is_training then some computed_mf else a.train_mean_female
    let tsm := if a.is_training then some computed_sm else a.train_std_male
    let tsf := if a.is_training then some computed_sf else a.train_std_female
    let savedStats := if a.is_training && a.save then
        some (computed_mm, computed_mf, computed_sm, computed_sf)
      else none
    if a.save then
      let p := savePhase (processUttG (normStats tmm tsm) (normStats tmf tsf) a.normalize_mode)
        (allUtts (males ++ females))
      ⟨savedStats, p.1, p.2.1, p.2.2,
        if p.2.2 = none then some (tmm, tmf, tsm, tsf) else none⟩
    else ⟨savedStats, [], none, none, some (tmm, tmf, tsm, tsf)⟩

/-- Modelled from the spec: the frame slicing of `segment_htk`
(`utils/inputs/segmentation.py`, not under `src/`).  Per spec §4.1, for each
boundary the emitted range is
`[max(0, start_frame - pad_frames), min(stream.frame_count, end_frame + pad_frames))`,
clipped at both stream edges (natural subtraction realizes the `max(0, ·)`
clip). -/
def segment_slice (stream : Mat) (start_frame end_frame pad_frames : ℕ) : Mat :=
  let s := start_frame - pad_frames
  let e := min stream.length (end_frame + pad_frames)
  (stream.drop s).take (e - s)

/-- Pointwise description of `List.zipWith` through `getD`, for in-bounds
indices. -/
theorem zipWith_getD (f : ℝ → ℝ → ℝ) :
    ∀ (xs ys : List ℝ) (j : ℕ), j < xs.length → j < ys.length →
      (List.zipWith f xs ys).getD j 0 = f (xs.getD j 0) (ys.getD j 0)
  | [], _, j, hx, _ => absurd hx (by simp)
  | _ :: _, [], _, _, hy => absurd hy (by simp)
  | _ :: _, _ :: _, 0, _, _ => rfl
  | _ :: xs, _ :: ys, j + 1, hx, hy => by
    simpa using zipWith_getD f xs ys j (by simpa using hx) (by simpa using hy)

/-- Pointwise description of a normalized matrix: in-bounds entries carry the
`(x - mean) / std` value. -/
theorem normalize_getD (m : Mat) (mean std : Vec) (i j : ℕ)
    (hi : i < m.length) (hj : j < (m.getD i []).length)
    (hmean : j < mean.length) (hstd : j < std.length) :
    ((normalize m mean std).getD i []).getD j 0
      = ((m.getD i []).getD j 0 - mean.getD j 0) / std.getD j 0 := by
  have hrow : (normalize m mean std).getD i [] = vecDiv (vecSub (m.getD i []) mean) std := by
    unfold normalize
    rw [List.getD_eq_getElem?_getD, List.getElem?_map,
      List.getElem?_eq_getElem hi]
    simp [List.getD_eq_getElem?_getD, List.getElem?_eq_getElem hi]
  rw [hrow]
  unfold vecDiv vecSub
  have hb : j < (List.zipWith (fun a b => a - b) (m.getD i []) mean).length := by
    rw [List.length_zipWith]; omega
  rw [zipWith_getD _ _ _ j hb hstd, zipWith_getD _ _ _ j hj hmean]

/-- Pointwise description of `List.map` through `getD`, for in-bounds
indices (any defaults). -/
theorem map_getD (f : ℝ → ℝ) (l : List ℝ) (j : ℕ) (h : j < l.length) (d d' : ℝ) :
    (l.map f).getD j d = f (l.getD j d') := by
  rw [List.getD_eq_getElem?_getD, List.getElem?_map, List.getElem?_eq_getElem h,
    List.getD_eq_getElem?_getD, List.getElem?_eq_getElem h]
  rfl

/-- A fold of elementwise vector additions, read at one in-bounds coordinate,
is the scalar sum of that coordinate. -/
theorem foldl_vecAdd_getD :
    ∀ (l : List Vec) (init : Vec) (j : ℕ), j < init.length → (∀ v ∈ l, j < v.length) →
      j < (l.foldl vecAdd init).length ∧
      (l.foldl vecAdd init).getD j 0
        = init.getD j 0 + (l.map (fun v => v.getD j 0)).sum
  | [], _, _, hinit, _ => ⟨hinit, by simp⟩
  | v :: rest, init, j, hinit, hall => by
    have hv : j < v.length := hall v (by simp)
    have h1 : j < (vecAdd init v).length := by
      unfold vecAdd; rw [List.length_zipWith]; omega
    have ih := foldl_vecAdd_getD rest (vecAdd init v) j h1
      (fun w hw => hall w (by simp [hw]))
    refine ⟨ih.1, ?_⟩
    rw [List.foldl_cons, ih.2]
    unfold vecAdd
    rw [zipWith_getD _ _ _ j hinit hv]
    simp [List.map_cons, List.sum_cons]
    ring

/-- Pointwise description of `sqrt_sum`: at an in-bounds coordinate it is the
sum over the frames of the squared deviation from the mean. -/
theorem sqrt_sum_getD (frames : Mat) (mean : Vec) (j : ℕ)
    (hdim : j < (frames.headD []).length) (hmean : j < mean.length)
    (hall : ∀ v ∈ frames, j < v.length) :
    j < (sqrt_sum frames mean).length ∧
    (sqrt_sum frames mean).getD j 0
      = (frames.map (fun v => (v.getD j 0 - mean.getD j 0) ^ 2)).sum := by
  unfold sqrt_sum
  rw [show frames.foldl
        (fun acc input_vec => vecAdd acc ((vecSub input_vec mean).map (fun x => x ^ 2)))
        (List.replicate (frames.headD []).length 0)
      = (frames.map (fun v => (vecSub v mean).map (fun x => x ^ 2))).foldl vecAdd
        (List.replicate (frames.headD []).length 0) from
    (List.foldl_map _ _ _ _).symm]
  have hall2 : ∀ w ∈ frames.map (fun v => (vecSub v mean).map (fun x => x ^ 2)),
      j < w.length := by
    intro w hw
    obtain ⟨v, hv, rfl⟩ := List.mem_map.mp hw
    have := hall v hv
    simp only [List.length_map, vecSub, List.length_zipWith]
    omega
  have h := foldl_vecAdd_getD (frames.map (fun v => (vecSub v mean).map (fun x => x ^ 2)))
    (List.replicate (frames.headD []).length 0) j (by simpa using hdim) hall2
  refine ⟨h.1, ?_⟩
  rw [h.2]
  have hz : (List.replicate (frames.headD []).length (0:ℝ)).getD j 0 = 0 := by
    rw [List.getD_eq_getElem?_getD, List.getElem?_replicate, if_pos hdim]
    rfl
  rw [hz, zero_add, List.map_map]
  refine congrArg List.sum (List.map_congr_left ?_)
  intro v hv
  have hvlen : j < v.length := hall v hv
  have hsub : j < (vecSub v mean).length := by
    unfold vecSub; rw [List.length_zipWith]; omega
  simp only [Function.comp]
  rw [map_getD _ _ _ hsub 0 0]
  unfold vecSub
  rw [zipWith_getD _ _ _ j hvlen hmean]

/-- Claim C1 as amended: at every in-bounds coordinate the finalized global
mean of the single-cohort reader equals `(r + Σ speaker sums) / total_frames`,
where `r` is the residue the uninitialized `np.empty` accumulator started
with; only for `r = 0` is this the claimed `Σ sums / total`, and on the
synthetic cohort with frame counts [3, 2] and constant values 2.0 and 8.0 the
zero-residue value is 22/5 = 4.4, not the claimed 4.0. -/
theorem train_global_mean_pointwise (init : Vec) (sums : List Vec)
    (counts : List ℕ) (j : ℕ)
    (hinit : j < init.length) (hall : ∀ v ∈ sums, j < v.length) :
    (train_global_mean init sums counts).getD j 0
      = (init.getD j 0 + (sums.map (fun v => v.getD j 0)).sum) / (counts.sum : ℝ) := by
  unfold train_global_mean
  have h := foldl_vecAdd_getD sums init j hinit hall
  rw [map_getD _ _ _ h.1 0 0, h.2]

/-- Witness for the amended C1 at the synthetic cohort (zero residue): the
mean is (0 + (6 + 16)) / 5. -/
theorem train_global_mean_pointwise_witness :
    (train_global_mean [0] [[6], [16]] [3, 2]).getD 0 0
      = (([0] : Vec).getD 0 0 + (([[6], [16]] : List Vec).map (fun v => v.getD 0 0)).sum)
        / (([3, 2] : List ℕ).sum : ℝ) :=
  train_global_mean_pointwise [0] [[6], [16]] [3, 2] 0 (by decide) (by decide)

/-- Counterexample to claim C1: on the synthetic cohort (speaker frame sums
[6] and [16], frame counts [3, 2]) the code with a zero-residue accumulator
finalizes the mean at 22/5 = 4.4, not the claimed 4.0; and a nonzero
`np.empty` residue (here [1]) shifts the result away from `Σ sums / total`
altogether. -/
theorem csj_global_mean_counterexample :
    train_global_mean [0] [[6], [16]] [3, 2] = [22 / 5] ∧
    (22 / 5 : ℝ) ≠ 4 ∧
    train_global_mean [1] [[6], [16]] [3, 2] = [23 / 5] ∧
    (23 / 5 : ℝ) ≠ 22 / 5 := by
  refine ⟨?_, by norm_num, ?_, by norm_num⟩ <;>
    norm_num [train_global_mean, vecAdd, List.foldl]

/-- Claim C2 as amended: at every in-bounds coordinate the finalized global
std of the single-cohort reader equals
`sqrt((r + Σ_speakers Σ_frames (x - mean_j)²) / total_frames)`, the squared
deviations being taken against the finalized Pass-1 mean, where `r` is the
residue of the uninitialized `np.empty` std accumulator; only for `r = 0` is
this the claimed `sqrt(sum_sq_dev / total)`, and on the synthetic cohort
[2,2,2,8,8] (whose finalized mean is 4.4) the zero-residue value is
`sqrt(8.64) ≈ 2.9394`, not the claimed `sqrt(8.8) ≈ 2.9665`. -/
theorem train_global_std_pointwise (initStd : Vec) (framesList : List Mat)
    (mean : Vec) (counts : List ℕ) (j : ℕ)
    (hinit : j < initStd.length) (hmean : j < mean.length)
    (hall : ∀ frames ∈ framesList,
      (∀ v ∈ frames, j < v.length) ∧ j < (frames.headD []).length) :
    (train_global_std initStd framesList mean counts).getD j 0
      = Real.sqrt ((initStd.getD j 0 +
          (framesList.map
            (fun frames => (frames.map (fun v => (v.getD j 0 - mean.getD j 0) ^ 2)).sum)).sum)
        / (counts.sum : ℝ)) := by
  unfold train_global_std
  rw [show framesList.foldl (fun acc frames => vecAdd acc (sqrt_sum frames mean)) initStd
      = (framesList.map (fun frames => sqrt_sum frames mean)).foldl vecAdd initStd from
    (List.foldl_map _ _ _ _).symm]
  have hall2 : ∀ w ∈ framesList.map (fun frames => sqrt_sum frames mean), j < w.length := by
    intro w hw
    obtain ⟨frames, hf, rfl⟩ := List.mem_map.mp hw
    exact (sqrt_sum_getD frames mean j (hall frames hf).2 hmean (hall frames hf).1).1
  have h := foldl_vecAdd_getD (framesList.map (fun frames => sqrt_sum frames mean))
    initStd j hinit hall2
  rw [map_getD _ _ _ h.1 0 0, h.2, List.map_map]
  refine congrArg Real.sqrt (congrArg (fun x => x / ((counts.sum : ℕ) : ℝ))
    (congrArg (fun s => initStd.getD j 0 + s) (congrArg List.sum
      (List.map_congr_left ?_))))
  intro frames hf
  simp only [Function.comp]
  exact (sqrt_sum_getD frames mean j (hall frames hf).2 hmean (hall frames hf).1).2

/-- Witness for the amended C2 at the synthetic cohort with the finalized
mean [22/5] and zero residue. -/
theorem train_global_std_pointwise_witness :
    (train_global_std [0] [[[2], [2], [2]], [[8], [8]]] [22 / 5] [3, 2]).getD 0 0
      = Real.sqrt ((([0] : Vec).getD 0 0 +
          (([[[2], [2], [2]], [[8], [8]]] : List Mat).map
            (fun frames =>
              (frames.map (fun v => (v.getD 0 0 - ([22 / 5] : Vec).getD 0 0) ^ 2)).sum)).sum)
        / (([3, 2] : List ℕ).sum : ℝ)) :=
  train_global_std_pointwise [0] [[[2], [2], [2]], [[8], [8]]] [22 / 5] [3, 2] 0
    (by decide) (by decide) (by decide)

/-- Counterexample to claim C2: on the synthetic cohort [2,2,2,8,8] with the
actually-finalized mean 22/5 = 4.4 and zero-residue accumulators, the code
finalizes the std at `sqrt(216/25) = sqrt(8.64)`, which differs from the
claimed `sqrt(44/5) = sqrt(8.8)`; and a nonzero `np.empty` residue (here [1])
changes the result further, to `sqrt(221/25)`. -/
theorem csj_global_std_counterexample :
    train_global_std [0] [[[2], [2], [2]], [[8], [8]]]
        (train_global_mean [0] [[6], [16]] [3, 2]) [3, 2]
      = [Real.sqrt (216 / 25)] ∧
    Real.sqrt (216 / 25) ≠ Real.sqrt (44 / 5) ∧
    train_global_std [1] [[[2], [2], [2]], [[8], [8]]]
        (train_global_mean [0] [[6], [16]] [3, 2]) [3, 2]
      = [Real.sqrt (221 / 25)] ∧
    Real.sqrt (221 / 25) ≠ Real.sqrt (216 / 25) := by
  have hm : train_global_mean [0] [[6], [16]] [3, 2] = [22 / 5] := by
    norm_num [train_global_mean, vecAdd, List.foldl]
  have hsq : ∀ a b : ℝ, 0 ≤ a → a < b → Real.sqrt a ≠ Real.sqrt b := by
    intro a b ha hab h
    have := Real.sqrt_lt_sqrt ha hab
    rw [h] at this
    exact lt_irrefl _ this
  have hA : sqrt_sum [[2], [2], [2]] [22 / 5] = [432 / 25] := by
    norm_num [sqrt_sum, vecAdd, vecSub, List.foldl]
  have hB : sqrt_sum [[8], [8]] [22 / 5] = [648 / 25] := by
    norm_num [sqrt_sum, vecAdd, vecSub, List.foldl]
  refine ⟨?_, hsq _ _ (by norm_num) (by norm_num), ?_,
    (hsq _ _ (by norm_num) (by norm_num)).symm⟩
  · rw [hm]
    unfold train_global_std
    simp only [List.foldl_cons, List.foldl_nil]
    rw [hA, hB]
    have hv : vecAdd (vecAdd ([0] : Vec) [432 / 25]) [648 / 25] = [(1080 : ℝ) / 25] := by
      norm_num [vecAdd]
    rw [hv]
    simp only [List.map_cons, List.map_nil, List.sum_cons, List.sum_nil]
    refine congrArg (fun x => [x]) (congrArg Real.sqrt ?_)
    norm_num
  · rw [hm]
    unfold train_global_std
    simp only [List.foldl_cons, List.foldl_nil]
    rw [hA, hB]
    have hv : vecAdd (vecAdd ([1] : Vec) [432 / 25]) [648 / 25] = [(1105 : ℝ) / 25] := by
      norm_num [vecAdd]
    rw [hv]
    simp only [List.map_cons, List.map_nil, List.sum_cons, List.sum_nil]
    refine congrArg (fun x => [x]) (congrArg Real.sqrt ?_)
    norm_num

/-- Claim C3: normalization returns the matrix with the mean subtracted and
the std divided out, broadcast per feature column — the row count is preserved
and every in-bounds entry equals `(x - mean_j) / std_j`. -/
theorem normalize_pointwise (m : Mat) (mean std : Vec) (i j : ℕ)
    (hi : i < m.length) (hj : j < (m.getD i []).length)
    (hmean : j < mean.length) (hstd : j < std.length) :
    (normalize m mean std).length = m.length ∧
    ((normalize m mean std).getD i []).getD j 0
      = ((m.getD i []).getD j 0 - mean.getD j 0) / std.getD j 0 :=
  ⟨by simp [normalize], normalize_getD m mean std i j hi hj hmean hstd⟩

/-- Witness for C3 at a concrete input. -/
theorem normalize_pointwise_witness :
    (normalize [[5]] [1] [2]).length = 1 ∧
    ((normalize [[5]] [1] [2]).getD 0 []).getD 0 0 = ((5 : ℝ) - 1) / 2 :=
  normalize_pointwise [[5]] [1] [2] 0 0 (by decide) (by decide) (by decide) (by decide)

/-- Counterexample to claim C6: with statistics whose std vector is exactly
zero, the saving-loop normalization step does not fail — it performs the
division and returns the transformed utterance (`(2-1)/0`, a non-finite value
in IEEE arithmetic, rendered as Lean's `x / 0 = 0`); no `ZeroVarianceError`
exists anywhere in the code. -/
theorem zero_std_no_error_counterexample :
    processUtt (some ([1], [0])) true [[2]] = Except.ok [[(2 - 1 : ℝ) / 0]] := by
  norm_num [processUtt, normalize, vecDiv, vecSub]

/-- Claim C6 as amended: normalization with a zero-std dimension raises no
error; the elementwise `(x - mean) / std` division is carried out regardless
(in IEEE floating point this yields non-finite values in the zero
dimension; no fallback is substituted). -/
theorem zero_std_division_proceeds (mu sd : Vec) (m : Mat) (j : ℕ)
    (hz : sd.getD j 0 = 0) (hj : j < sd.length) :
    processUtt (some (mu, sd)) true m = Except.ok (normalize m mu sd) ∧
    ∀ i, i < m.length → j < (m.getD i []).length → j < mu.length →
      ((normalize m mu sd).getD i []).getD j 0
        = ((m.getD i []).getD j 0 - mu.getD j 0) / 0 := by
  refine ⟨rfl, fun i hi hrow hmu => ?_⟩
  rw [normalize_getD m mu sd i j hi hrow hmu hj, hz]

/-- Claim C4: a non-training run of the single-cohort reader that requests
global normalization, with saving enabled, no statistics arguments, and at
least one utterance, crashes at the first utterance's normalization (the
training-pass statistics were never bound; in Python an `UnboundLocalError`
on `train_global_mean`) and writes nothing: no utterance matrix, no
frame-count index, no statistics files. -/
theorem csj_missing_stats_aborts (a : CsjArgs)
    (htrain : a.is_training = false) (hgn : a.global_norm = true)
    (hsave : a.save = true)
    (hmean : a.train_mean = none) (hstd : a.train_std = none)
    (hne : allUtts a.speakers ≠ []) :
    (read_htk a).err = some PyError.missingStatistics ∧
    (read_htk a).savedUtts = [] ∧
    (read_htk a).frameIndex = none ∧
    (read_htk a).savedStats = none := by
  obtain ⟨p, rest, hsplit⟩ := List.exists_cons_of_ne_nil hne
  obtain ⟨k, m⟩ := p
  have hstats : csjStats a = none := by simp [csjStats, htrain]
  simp only [read_htk, htrain, hsave, hstats, hgn, Bool.false_and, hsplit]
  simp [savePhase, saveLoop, processUtt]

/-- Witness for C4 at a concrete input. -/
theorem csj_missing_stats_aborts_witness :
    (read_htk ⟨[⟨"A", [(("A_1" : String), [[2]])], [2], 1⟩],
        true, false, true, none, none, [], []⟩).err
      = some PyError.missingStatistics ∧
    (read_htk ⟨[⟨"A", [(("A_1" : String), [[2]])], [2], 1⟩],
        true, false, true, none, none, [], []⟩).savedUtts = [] ∧
    (read_htk ⟨[⟨"A", [(("A_1" : String), [[2]])], [2], 1⟩],
        true, false, true, none, none, [], []⟩).frameIndex = none ∧
    (read_htk ⟨[⟨"A", [(("A_1" : String), [[2]])], [2], 1⟩],
        true, false, true, none, none, [], []⟩).savedStats = none :=
  csj_missing_stats_aborts _ rfl rfl rfl rfl rfl (by simp [allUtts])

/-- Claim C5: every single-cohort `read_htk` call that reaches its `return`
statement returns exactly the `train_mean` and `train_std` arguments it
received — even in training mode, where the newly computed global statistics
are persisted to files but never returned. -/
theorem csj_read_htk_returns_args (a : CsjArgs)
    (hok : (read_htk a).err = none) :
    (read_htk a).returned = some (a.train_mean, a.train_std) := by
  unfold read_htk at hok ⊢
  by_cases h1 : (a.is_training && a.speakers.isEmpty) = true
  · rw [if_pos h1] at hok
    exact absurd hok (by simp)
  · rw [if_neg h1] at hok ⊢
    by_cases h2 : a.save = true
    · rw [if_pos h2] at hok ⊢
      simp only [] at hok ⊢
      rw [if_pos hok]
    · rw [if_neg h2] at hok ⊢

/-- Witness for C5 at a concrete training-mode input: the computed statistics
are persisted but the returned pair is the arguments `(some [7], some [8])`. -/
theorem csj_read_htk_returns_args_witness :
    (read_htk ⟨[⟨"A", [(("A_1" : String), [[2]])], [2], 1⟩],
        true, true, true, some [7], some [8], [0], [0]⟩).returned
      = some (some [7], some [8]) :=
  csj_read_htk_returns_args _ rfl

/-- Witness for the amended C6 at a concrete input. -/
theorem zero_std_division_proceeds_witness :
    processUtt (some ([1], [0])) true [[2]] = Except.ok (normalize [[2]] [1] [0]) ∧
    ∀ i, i < ([[2]] : Mat).length → 0 < (([[2]] : Mat).getD i []).length →
      0 < ([1] : Vec).length →
      ((normalize [[2]] [1] [0]).getD i []).getD 0 0
        = ((([[2]] : Mat).getD i []).getD 0 0 - ([1] : Vec).getD 0 0) / 0 :=
  zero_std_division_proceeds [1] [0] [[2]] 0 (by norm_num) (by decide)

/-- Claim C7: in the per-gender reader, a speaker whose name carries a
character other than `'M'` or `'F'` at index 3 is silently dropped by the
gender routing, and the whole run — statistics, normalization, saving, frame
index, return value — behaves exactly as if that speaker were absent. -/
theorem gender_other_speaker_excluded
    (pre post : List SpeakerData) (sp : SpeakerData) (c : Char)
    (mode : NormMode) (tr sv : Bool) (m1 m2 m3 m4 : Option Vec)
    (hc : sp.name.toList.get? 3 = some c) (hM : c ≠ 'M') (hF : c ≠ 'F') :
    gender_read_htk ⟨pre ++ sp :: post, mode, tr, sv, m1, m2, m3, m4⟩
      = gender_read_htk ⟨pre ++ post, mode, tr, sv, m1, m2, m3, m4⟩ := by
  have hc' : sp.name.data[3]? = some c := by
    simpa [String.toList, List.get?_eq_getElem?] using hc
  have hsg : ∀ l : List SpeakerData,
      splitGender (l ++ sp :: post) = splitGender (l ++ post) := by
    intro l
    induction l with
    | nil =>
      simp only [List.nil_append]
      rcases h : splitGender post with e | ⟨ms, fs⟩
      · simp [splitGender, hc', h]
      · simp [splitGender, hc', h, hM, hF]
    | cons q l ih =>
      simp only [List.cons_append, splitGender, List.append_eq]
      rw [ih]
  unfold gender_read_htk
  rw [show (⟨pre ++ sp :: post, mode, tr, sv, m1, m2, m3, m4⟩ : GArgs).speakers
      = pre ++ sp :: post from rfl,
    show (⟨pre ++ post, mode, tr, sv, m1, m2, m3, m4⟩ : GArgs).speakers
      = pre ++ post from rfl,
    hsg pre]

/-- Witness for C7 at a concrete input: a speaker named `AB1X` is dropped and
the run equals the run over the remaining speaker `AB1M` alone. -/
theorem gender_other_speaker_excluded_witness :
    gender_read_htk ⟨[⟨"AB1X", [(("AB1X_1" : String), [[2]])], [2], 1⟩,
        ⟨"AB1M", [(("AB1M_1" : String), [[3]])], [3], 1⟩],
      NormMode.speaker, false, true, none, none, none, none⟩
      = gender_read_htk ⟨[⟨"AB1M", [(("AB1M_1" : String), [[3]])], [3], 1⟩],
      NormMode.speaker, false, true, none, none, none, none⟩ :=
  gender_other_speaker_excluded []
    [⟨"AB1M", [(("AB1M_1" : String), [[3]])], [3], 1⟩]
    ⟨"AB1X", [(("AB1X_1" : String), [[2]])], [2], 1⟩ 'X'
    NormMode.speaker false true none none none none
    (by decide) (by decide) (by decide)

/-- When normalization cannot crash (speaker mode, or bound statistics), one
saving-loop iteration succeeds and emits `emit`. -/
theorem processUtt_ok (stats : Option (Vec × Vec)) (gn : Bool) (m : Mat)
    (h : gn = false ∨ ∃ s, stats = some s) :
    processUtt stats gn m = .ok (emit stats gn m) := by
  rcases h with h | ⟨⟨mu, sd⟩, rfl⟩
  · simp [processUtt, emit, h]
  · cases gn <;> simp [processUtt, emit]

/-- Emitting preserves the frame count (normalization is a row map). -/
theorem emit_length (stats : Option (Vec × Vec)) (gn : Bool) (m : Mat) :
    (emit stats gn m).length = m.length := by
  rcases stats with _ | ⟨mu, sd⟩ <;> cases gn <;> simp [emit, normalize]

/-- The saving loop under an everywhere-succeeding processor: it appends one
save record per utterance in order and one dictionary insertion per
utterance, and reports no failure. -/
theorem saveLoop_ok (proc : String → Mat → Except PyError Mat)
    (e : String → Mat → Mat) (hp : ∀ k m, proc k m = .ok (e k m)) :
    ∀ (utts saved : List (String × Mat)) (dict : List (String × ℕ)),
      saveLoop proc utts saved dict
        = (saved ++ utts.map (fun q => (q.1, e q.1 q.2)),
           utts.foldl (fun d q => dictInsert d q.1 (e q.1 q.2).length) dict, none)
  | [], saved, dict => by simp [saveLoop]
  | (k, m) :: rest, saved, dict => by
    rw [saveLoop, hp k m]
    show saveLoop proc rest (saved ++ [(k, e k m)]) (dictInsert dict k (e k m).length) = _
    rw [saveLoop_ok proc e hp rest (saved ++ [(k, e k m)]) (dictInsert dict k (e k m).length)]
    simp

/-- Inserting a fresh key into the dictionary appends it. -/
theorem dictInsert_fresh (d : List (String × ℕ)) (k : String) (v : ℕ)
    (h : ∀ p ∈ d, p.1 ≠ k) : dictInsert d k v = d ++ [(k, v)] := by
  induction d with
  | nil => rfl
  | cons p rest ih =>
    have hp : p.1 ≠ k := h p (by simp)
    simp only [dictInsert, if_neg hp, List.cons_append]
    rw [ih (fun q hq => h q (by simp [hq]))]

/-- Folding dictionary insertions of pairwise-fresh keys over a dictionary
they do not collide with appends them all in order. -/
theorem foldl_dictInsert_fresh :
    ∀ (pairs d : List (String × ℕ)),
      (∀ q ∈ pairs, ∀ p ∈ d, p.1 ≠ q.1) → (pairs.map Prod.fst).Nodup →
      pairs.foldl (fun acc q => dictInsert acc q.1 q.2) d = d ++ pairs
  | [], d, _, _ => by simp
  | ⟨k, v⟩ :: rest, d, hfresh, hnodup => by
    simp only [List.foldl_cons]
    rw [dictInsert_fresh d k v (fun p hp => hfresh ⟨k, v⟩ (by simp) p hp)]
    have hn : k ∉ rest.map Prod.fst ∧ (rest.map Prod.fst).Nodup := by
      rw [List.map_cons, List.nodup_cons] at hnodup
      exact hnodup
    rw [foldl_dictInsert_fresh rest (d ++ [(k, v)]) ?_ hn.2]
    · simp
    · intro r hr p hp
      rcases List.mem_append.mp hp with hp | hp
      · exact hfresh r (by simp [hr]) p hp
      · have hpkv : p = (k, v) := by simpa using hp
        subst hpkv
        show k ≠ r.1
        intro hkr
        rw [hkr] at hn
        exact hn.1 (List.mem_map_of_mem Prod.fst hr)

/-- The saving phase under an everywhere-succeeding processor. -/
theorem savePhase_ok (proc : String → Mat → Except PyError Mat)
    (e : String → Mat → Mat) (hp : ∀ k m, proc k m = .ok (e k m))
    (utts : List (String × Mat)) :
    savePhase proc utts = (utts.map (fun q => (q.1, e q.1 q.2)),
      some (utts.foldl (fun d q => dictInsert d q.1 (e q.1 q.2).length) []), none) := by
  unfold savePhase
  rw [saveLoop_ok proc e hp utts [] []]
  simp

/-- Claim C8: after a single-cohort run with saving enabled that finished
without crashing and whose composite utterance keys are pairwise distinct, the
persisted frame-count index holds exactly one entry per utterance processed,
in order, each mapping the utterance's composite key to the frame count of the
matrix that was emitted for it — none missing, none extra. -/
theorem csj_frame_index_exact (a : CsjArgs) (hsave : a.save = true)
    (hok : (read_htk a).err = none)
    (huniq : ((allUtts a.speakers).map Prod.fst).Nodup) :
    (read_htk a).frameIndex
      = some ((read_htk a).savedUtts.map (fun q => (q.1, q.2.length))) ∧
    (read_htk a).savedUtts.map Prod.fst = (allUtts a.speakers).map Prod.fst := by
  by_cases h1 : (a.is_training && a.speakers.isEmpty) = true
  · exfalso
    have he : (read_htk a).err = some PyError.indexError := by
      unfold read_htk; rw [if_pos h1]
    rw [he] at hok
    exact Option.noConfusion hok
  · by_cases h2 : a.global_norm = true ∧ csjStats a = none
    · rcases hutts : allUtts a.speakers with _ | ⟨⟨k, m⟩, rest⟩
      · unfold read_htk
        rw [if_neg h1, if_pos hsave, hutts]
        simp [savePhase, saveLoop]
      · exfalso
        have he : (read_htk a).err = some PyError.missingStatistics := by
          unfold read_htk
          rw [if_neg h1, if_pos hsave, hutts]
          simp [savePhase, saveLoop, processUtt, h2.1, h2.2]
        rw [he] at hok
        exact Option.noConfusion hok
    · have hp : ∀ (k : String) (m : Mat),
          processUtt (csjStats a) a.global_norm m
            = .ok (emit (csjStats a) a.global_norm m) := by
        intro k m
        apply processUtt_ok
        rcases Bool.eq_false_or_eq_true a.global_norm with hg | hg
        · rcases hcs : csjStats a with _ | s
          · exact absurd ⟨hg, hcs⟩ h2
          · exact Or.inr ⟨s, rfl⟩
        · exact Or.inl hg
      unfold read_htk
      rw [if_neg h1, if_pos hsave,
        savePhase_ok _ (fun _ m => emit (csjStats a) a.global_norm m) hp
          (allUtts a.speakers)]
      have hkeys : (((allUtts a.speakers).map
          (fun q => (q.1, (emit (csjStats a) a.global_norm q.2).length))).map Prod.fst).Nodup := by
        rw [List.map_map]
        simpa [Function.comp] using huniq
      rw [show List.foldl
          (fun d q => dictInsert d q.1 (List.length (emit (csjStats a) a.global_norm q.2)))
          [] (allUtts a.speakers)
        = List.foldl (fun acc q => dictInsert acc q.1 q.2) []
          ((allUtts a.speakers).map
            (fun q => (q.1, (emit (csjStats a) a.global_norm q.2).length))) from
        by rw [List.foldl_map]]
      rw [foldl_dictInsert_fresh
        ((allUtts a.speakers).map
          (fun q => (q.1, (emit (csjStats a) a.global_norm q.2).length)))
        [] (by simp) hkeys]
      simp [List.map_map, Function.comp]

/-- Witness for C8 at a concrete input: one speaker with two utterances of 1
and 2 frames. -/
theorem csj_frame_index_exact_witness :
    (read_htk ⟨[⟨"A", [(("A_1" : String), [[2]]), (("A_2" : String), [[3], [4]])], [0], 0⟩],
        false, false, true, none, none, [], []⟩).frameIndex
      = some ((read_htk ⟨[⟨"A", [(("A_1" : String), [[2]]), (("A_2" : String), [[3], [4]])], [0], 0⟩],
        false, false, true, none, none, [], []⟩).savedUtts.map (fun q => (q.1, q.2.length))) ∧
    (read_htk ⟨[⟨"A", [(("A_1" : String), [[2]]), (("A_2" : String), [[3], [4]])], [0], 0⟩],
        false, false, true, none, none, [], []⟩).savedUtts.map Prod.fst
      = (allUtts [⟨"A", [(("A_1" : String), [[2]]), (("A_2" : String), [[3], [4]])], [0], 0⟩]).map Prod.fst :=
  csj_frame_index_exact _ rfl rfl (by simp [allUtts])

/-- Claim C9: for every boundary satisfying the data-model invariant
`start ≤ end ≤ stream length` and every padding, the emitted range is
`[max(0, start - pad), min(stream length, end + pad))`: the natural-number
clipped start coincides with `max(0, start - pad)` over ℤ, the emitted length
and frames are exactly those of that index range, clipping at either edge is
total (never an error), and with `pad = 0` the emitted range is exactly
`[start, end)`. -/
theorem segment_range_spec (stream : Mat) (start_frame end_frame pad_frames : ℕ)
    (h1 : start_frame ≤ end_frame) (h2 : end_frame ≤ stream.length) :
    ((start_frame - pad_frames : ℕ) : ℤ)
        = max 0 ((start_frame : ℤ) - (pad_frames : ℤ)) ∧
    (segment_slice stream start_frame end_frame pad_frames).length
        = min stream.length (end_frame + pad_frames) - (start_frame - pad_frames) ∧
    (∀ i : ℕ, (segment_slice stream start_frame end_frame pad_frames)[i]?
        = if i < min stream.length (end_frame + pad_frames) - (start_frame - pad_frames)
          then stream[(start_frame - pad_frames) + i]? else none) ∧
    segment_slice stream start_frame end_frame 0
        = (stream.drop start_frame).take (end_frame - start_frame) ∧
    (segment_slice stream start_frame end_frame 0).length = end_frame - start_frame := by
  have hlen : (segment_slice stream start_frame end_frame pad_frames).length
      = min stream.length (end_frame + pad_frames) - (start_frame - pad_frames) := by
    simp only [segment_slice, List.length_take, List.length_drop]
    omega
  have hzero : segment_slice stream start_frame end_frame 0
      = (stream.drop start_frame).take (end_frame - start_frame) := by
    simp only [segment_slice, Nat.sub_zero, Nat.add_zero, min_eq_right h2]
  refine ⟨by omega, hlen, ?_, hzero, ?_⟩
  · intro i
    by_cases hi : i < min stream.length (end_frame + pad_frames) - (start_frame - pad_frames)
    · rw [if_pos hi]
      simp only [segment_slice]
      rw [List.getElem?_take_of_lt hi, List.getElem?_drop]
    · rw [if_neg hi]
      apply List.getElem?_eq_none
      omega
  · rw [hzero]
    simp only [List.length_take, List.length_drop]
    omega

/-- Witness for C9 at a concrete input: a 3-frame stream, boundary [1, 2),
padding 5 (clipped at both edges). -/
theorem segment_range_spec_witness :
    (((1 - 5 : ℕ) : ℤ) = max 0 ((1 : ℤ) - (5 : ℤ))) ∧
    (segment_slice [[1], [2], [3]] 1 2 5).length = min 3 (2 + 5) - (1 - 5) ∧
    (∀ i : ℕ, (segment_slice [[1], [2], [3]] 1 2 5)[i]?
        = if i < min 3 (2 + 5) - (1 - 5)
          then ([[1], [2], [3]] : Mat)[(1 - 5) + i]? else none) ∧
    segment_slice [[1], [2], [3]] 1 2 0
        = (([[1], [2], [3]] : Mat).drop 1).take (2 - 1) ∧
    (segment_slice [[1], [2], [3]] 1 2 0).length = 2 - 1 :=
  segment_range_spec [[1], [2], [3]] 1 2 5 (by decide) (by decide)

end

end Asr

